import Mathlib

/-!
Verification development for the pinentry-wayland dialog core
(`src/main.rs`, `src/wayland_window.rs`).

The Rust code is shallowly embedded:
* `St` and `press_key` mirror the mutable fields of `PinEntryWindow`
  consulted by the keyboard handler (`PinEntryWindow::press_key`,
  wayland_window.rs:673-717) and the handler itself; the secret
  `pin_input : String` is modelled as `List Char` (appends of single
  chars / pasted strings, `String::pop` as `List.dropLast`).
* u32 arithmetic of the renderer is modelled on `Nat` with explicit
  `% 2^32` (release-mode wrapping semantics); `as i32` casts are
  modelled by `i32ofU32` / `i32ofUsize`.
* the frame composition (`render_to_canvas`, wayland_window.rs:224-303,
  and the glyph compositor `draw_text_with_font`, 305-455) is modelled
  as the list of byte-offset writes it performs into the canvas; each
  listed write touches bytes `[off, off+4)` and the same range is the
  one read back by the alpha blend.  Shaping/rasterization are foreign
  (swash) calls, so glyph images and their integer pixel positions
  (produced in the source by f32 layout arithmetic plus the i32
  placement offsets) are universally quantified inputs.
* the dispatch loop of `WaylandPinentry::show_pin_dialog`
  (main.rs:40-66) is modelled over a list of event batches: one batch
  per `blocking_dispatch` call, with the result slot checked after
  each batch.
-/

namespace PinentryWayland

/-! ### Keysym constants (xkbcommon values used by the source) -/

def ksReturn : Nat := 0xff0d
def ksKPEnter : Nat := 0xff8d
def ksEscape : Nat := 0xff1b
def ksBackSpace : Nat := 0xff08
def ksLowerV : Nat := 0x76
def ksUpperV : Nat := 0x56
def ksLowerA : Nat := 0x61
def ksUpperA : Nat := 0x41

/-- Mirror of `keysym_to_char` (wayland_window.rs:918-926): the raw
keysym value is returned as a `char` exactly when it lies in
`0x20..=0x7e` (the `as u8` truncation is the identity there). -/
def keysym_to_char (k : Nat) : Option Char :=
  if 0x20 ≤ k ∧ k ≤ 0x7e then some (Char.ofNat k) else none

/-- Rust `char::is_ascii_alphanumeric`. -/
def isAsciiAlphanumeric (c : Char) : Bool :=
  (0x30 ≤ c.toNat && c.toNat ≤ 0x39) ||
  (0x41 ≤ c.toNat && c.toNat ≤ 0x5a) ||
  (0x61 ≤ c.toNat && c.toNat ≤ 0x7a)

/-- Rust `char::is_ascii_punctuation`. -/
def isAsciiPunctuation (c : Char) : Bool :=
  (0x21 ≤ c.toNat && c.toNat ≤ 0x2f) ||
  (0x3a ≤ c.toNat && c.toNat ≤ 0x40) ||
  (0x5b ≤ c.toNat && c.toNat ≤ 0x60) ||
  (0x7b ≤ c.toNat && c.toNat ≤ 0x7e)

/-- Rust `char::is_ascii_whitespace`. -/
def isAsciiWhitespace (c : Char) : Bool :=
  c.toNat = 0x09 || c.toNat = 0x0a || c.toNat = 0x0c ||
  c.toNat = 0x0d || c.toNat = 0x20

/-! ### Input state machine -/

/-- Mirror of Rust `Result<String, String>` stored in
`PinEntryWindow::result`: `Ok(pin)` on Enter, `Err(msg)` on
cancellation. -/
inductive PinRes where
  | ok (pin : List Char)
  | err (msg : String)
deriving DecidableEq, Repr

/-- A pending clipboard selection offer (`SelectionOffer`), identified
by the mime types it advertises. -/
structure SelOffer where
  mimes : List String
deriving DecidableEq, Repr

/-- The fields of `PinEntryWindow` consulted and mutated by the
keyboard / close handlers: `pin_input`, `result`, `modifiers.ctrl`,
`clipboard_content` (the lock-protected slot the async reader fills),
`clipboard_offer`. -/
structure St where
  pin : List Char
  result : Option PinRes
  ctrl : Bool
  clipboard : Option (List Char)
  offer : Option SelOffer
deriving DecidableEq, Repr

/-- The error message used by both cancellation paths. -/
def cancelMsg : String := "User cancelled"

/-- Initial state built by `PinEntryWindow::new` (wayland_window.rs:
112-138): empty secret, empty result slot, default modifiers, no
clipboard payload, no offer. -/
def initSt : St :=
  { pin := [], result := none, ctrl := false, clipboard := none, offer := none }

/-- Mime-type priority of `read_clipboard` (wayland_window.rs:458-471). -/
def pickMime (mimes : List String) : Option String :=
  if "text/plain" ∈ mimes then some "text/plain"
  else if "text/plain;charset=utf-8" ∈ mimes then some "text/plain;charset=utf-8"
  else if "UTF8_STRING" ∈ mimes then some "UTF8_STRING"
  else if "STRING" ∈ mimes then some "STRING"
  else none

/-- Mirror of `PinEntryWindow::press_key` (wayland_window.rs:673-717).
The second component is the selection offer handed to
`read_clipboard` when the Ctrl+V branch begins an asynchronous
clipboard read (`none` when no read is started).  Note the source
consults `self.modifiers.ctrl` and never consults `self.result`. -/
def press_key (s : St) (k : Nat) : St × Option SelOffer :=
  if k = ksReturn ∨ k = ksKPEnter then
    ({ s with result := some (.ok s.pin) }, none)
  else if k = ksEscape then
    ({ s with result := some (.err cancelMsg) }, none)
  else if k = ksBackSpace then
    ({ s with pin := s.pin.dropLast }, none)
  else if s.ctrl ∧ (k = ksLowerV ∨ k = ksUpperV) then
    match s.clipboard with
    | some content => ({ s with pin := s.pin ++ content, clipboard := none }, none)
    | none =>
      match s.offer with
      | some o => ({ s with clipboard := none, offer := none }, some o)
      | none => ({ s with clipboard := none }, none)
  else if s.ctrl ∧ (k = ksLowerA ∨ k = ksUpperA) then
    (s, none)
  else
    match keysym_to_char k with
    | some c =>
        if isAsciiAlphanumeric c || isAsciiPunctuation c || isAsciiWhitespace c then
          ({ s with pin := s.pin ++ [c] }, none)
        else (s, none)
    | none => (s, none)

/-- Mirror of `WindowHandler::request_close` (wayland_window.rs:
582-584). -/
def request_close (s : St) : St :=
  { s with result := some (.err cancelMsg) }

/-- Fold a sequence of raw key presses through `press_key`. -/
def processKeys (s : St) (ks : List Nat) : St :=
  ks.foldl (fun t k => (press_key t k).1) s

/-- Events dispatched to `PinEntryWindow` that touch the modelled
state: key presses, modifier updates (`update_modifiers`), a window
close request, and the asynchronous clipboard reader completing
(wayland_window.rs:479-490, writing `clipboard_content`). -/
inductive Ev where
  | key (k : Nat)
  | mods (ctrl : Bool)
  | close
  | clipReady (txt : List Char)
deriving DecidableEq, Repr

/-- One event step of the window. -/
def step (s : St) : Ev → St
  | .key k => (press_key s k).1
  | .mods c => { s with ctrl := c }
  | .close => request_close s
  | .clipReady t => { s with clipboard := some t }

/-- One `blocking_dispatch` call: every event of the pending batch is
handled. -/
def runBatch (s : St) (evs : List Ev) : St :=
  evs.foldl step s

/-- The dispatch loop of `show_pin_dialog` (main.rs:47-55): handle a
batch, then check the result slot; exit as soon as it is occupied. -/
def dispatchLoop (s : St) : List (List Ev) → St
  | [] => s
  | b :: bs =>
    let s' := runBatch s b
    if s'.result.isSome then s' else dispatchLoop s' bs

/-- The match at main.rs:62-66: `Some(Ok(pin))` yields the secret,
`Some(Err(_))` and an empty slot both yield "no secret". -/
def dialogOutcome : Option PinRes → Option (List Char)
  | some (.ok pin) => some pin
  | some (.err _) => none
  | none => none

/-- Mirror of `pinentry::ConfirmChoice` as used by
`WaylandPinentry::confirm`. -/
inductive ConfirmChoice where
  | ok
  | canceled
deriving DecidableEq, Repr

/-- Mirror of `WaylandPinentry::confirm` (main.rs:112-131): the
dialog's outcome is collapsed to `Ok` when a secret was produced and
`Canceled` otherwise; the typed text itself is discarded. -/
def confirmChoiceOf (r : Option (List Char)) : ConfirmChoice :=
  if r.isSome then .ok else .canceled

/-! ### Renderer write trace -/

/-- 2^32, the wrap modulus of the source's u32 arithmetic. -/
def U32 : Nat := 4294967296

/-- Wrapping u32 value. -/
def u32 (n : Nat) : Nat := n % U32

/-- Wrapping u32 subtraction `a - b` for `a b < 2^32`. -/
def u32sub (a b : Nat) : Nat := (a + U32 - b) % U32

/-- Rust `u32 as i32` reinterpretation. -/
def i32ofU32 (n : Nat) : Int :=
  if n < 2147483648 then (n : Int) else (n : Int) - 4294967296

/-- Rust `usize as i32` (truncate to 32 bits, then reinterpret). -/
def i32ofUsize (n : Nat) : Int := i32ofU32 (n % U32)

/-- The byte offset `((y * width + x) * 4) as usize` computed in u32
arithmetic (wayland_window.rs:255,283,296,395,432). -/
def offOf (width x y : Nat) : Nat := ((y * width + x) * 4) % U32

/-- Rust half-open range `a..b`. -/
def rng (a b : Nat) : List Nat := List.range' a (b - a)

/-- One 4-byte canvas access: the intended destination pixel
coordinates and the linear byte offset actually used. -/
structure Wr where
  px : Nat
  py : Nat
  off : Nat
deriving DecidableEq, Repr

/-- The source's guard `offset + 4 <= canvas.len()` in front of every
4-byte slice write of `render_to_canvas`. -/
def guardWr (len x y o : Nat) : Option Wr :=
  if o + 4 ≤ len then some { px := x, py := y, off := o } else none

/-- Background fill (wayland_window.rs:242-244): `chunks_exact_mut(4)`
writes every complete 4-byte chunk. -/
def bgWrites (width len : Nat) : List Wr :=
  (List.range (len / 4)).map fun i => { px := i % width, py := i / width, off := 4 * i }

/-- Input-box fill (wayland_window.rs:253-260): `y` in `120..160`,
`x` in `20..(width - 20)` (wrapping u32 subtraction). -/
def boxWrites (width len : Nat) : List Wr :=
  (rng 120 160).flatMap fun y =>
    (rng 20 (u32sub width 20)).filterMap fun x =>
      guardWr len x y (offOf width x y)

/-- The fixed 8×8 redaction bitmap (wayland_window.rs:272-278).  The
match arms all return `true`, so order is immaterial. -/
def shouldDraw (dx dy : Nat) : Bool :=
  (dx = 3 || dx = 4) || (dy = 3 || dy = 4) ||
  ((dx = 2 && dy = 2) || (dx = 5 && dy = 2) || (dx = 2 && dy = 5) || (dx = 5 && dy = 5)) ||
  ((dx = 1 && dy = 1) || (dx = 6 && dy = 1) || (dx = 1 && dy = 6) || (dx = 6 && dy = 6))

/-- `start_x + (i as u32) * (asterisk_width + 4)` : the x origin of the
i-th redaction mark (and of the cursor for `i = pin_input_len`). -/
def markOrigin (i : Nat) : Nat := u32 (30 + u32 ((i % U32) * 12))

/-- Writes of one redaction mark with origin `ax`
(wayland_window.rs:270-289): `start_y = 136`. -/
def markWrites (width len ax : Nat) : List Wr :=
  (List.range 8).flatMap fun dy =>
    (List.range 8).filterMap fun dx =>
      if shouldDraw dx dy then
        guardWr len (u32 (ax + dx)) (136 + dy) (offOf width (u32 (ax + dx)) (136 + dy))
      else none

/-- The x origins of the redaction marks drawn for a secret of byte
length `pinLen` (the loop `for i in 0..pin_input_len`). -/
def marksList (pinLen : Nat) : List Nat :=
  (List.range pinLen).map markOrigin

/-- All redaction-glyph writes (wayland_window.rs:267-290). -/
def asteriskWrites (width len pinLen : Nat) : List Wr :=
  (marksList pinLen).flatMap (markWrites width len)

/-- Cursor-bar writes (wayland_window.rs:292-302): `y` in `130..150`,
`x` in `cursor_x..(cursor_x + 2)` with wrapping u32 addition. -/
def cursorWrites (width len pinLen : Nat) (cv : Bool) : List Wr :=
  if cv then
    (rng 130 150).flatMap fun y =>
      (rng (markOrigin pinLen) (u32 (markOrigin pinLen + 2))).filterMap fun x =>
        guardWr len x y (offOf width x y)
  else []

/-- `swash::scale::image::Content` of a rasterized glyph. -/
inductive GContent where
  | mask
  | color
  | subpixel
deriving DecidableEq, Repr

/-- A rasterized glyph image as consumed by `draw_text_with_font`:
placement extent and coverage bytes.  Produced by the foreign swash
scaler, hence an arbitrary input here. -/
structure GlyphImage where
  gw : Nat
  gh : Nat
  data : List Nat
  content : GContent
deriving DecidableEq, Repr

/-- One glyph to composite: its image and the integer pixel position
`(glyph_pixel_x, glyph_pixel_y)` computed at wayland_window.rs:369-370
from the f32 layout position and the i32 placement offsets; the
position is kept abstract (any `Int` the source arithmetic could
produce). -/
structure GlyphDraw where
  img : GlyphImage
  pixX : Int
  pixY : Int
deriving DecidableEq, Repr

/-- The coverage byte `glyph_data[glyph_idx]` read by
`draw_text_with_font`: the `Color` / `SubpixelMask` arm guards the
index with `glyph_idx < glyph_data.len()` (wayland_window.rs:428); the
`Mask` arm indexes unchecked (a too-short image would panic there,
which only truncates the access trace), modelled by `getD _ 0`. -/
def glyphCoverage (img : GlyphImage) (gidx : Nat) : Option Nat :=
  match img.content with
  | .mask => some (img.data.getD gidx 0)
  | _ => if gidx < img.data.length then some (img.data.getD gidx 0) else none

/-- The canvas access of `draw_text_with_font` for glyph coverage cell
`(gx, gy)` (wayland_window.rs:382-451): skip when the destination
pixel falls outside `[0,width) x [0, len/(width*4))` (both bounds as
`i32` casts, exactly as the source compares them), read the glyph
coverage byte, and blend (read + write bytes `[off, off+4)`) when the
coverage is positive and the offset guard passes. -/
def glyphWriteAt (width len : Nat) (d : GlyphDraw) (gx gy : Nat) : Option Wr :=
  if d.pixX + (gx : Int) < 0 ∨ d.pixY + (gy : Int) < 0 ∨
      i32ofU32 (u32 width) ≤ d.pixX + (gx : Int) ∨
      i32ofUsize (len / (width * 4)) ≤ d.pixY + (gy : Int) then
    none
  else
    match glyphCoverage d.img (u32 (gy * u32 d.img.gw + gx)) with
    | some a =>
        if 0 < a then
          guardWr len (d.pixX + (gx : Int)).toNat (d.pixY + (gy : Int)).toNat
            (offOf width (d.pixX + (gx : Int)).toNat (d.pixY + (gy : Int)).toNat)
        else none
    | none => none

/-- All canvas accesses made while compositing one glyph. -/
def glyphPixelWrites (width len : Nat) (d : GlyphDraw) : List Wr :=
  (List.range d.img.gh).flatMap fun gy =>
    (List.range d.img.gw).filterMap fun gx =>
      glyphWriteAt width len d gx gy

/-- All canvas accesses made while compositing one text string. -/
def textWrites (width len : Nat) (ds : List GlyphDraw) : List Wr :=
  ds.flatMap (glyphPixelWrites width len)

/-- The complete write trace of `render_to_canvas`
(wayland_window.rs:224-303), in source order: background fill,
description text, prompt text, input-box fill, redaction glyphs,
cursor bar. -/
def renderWrites (width len pinLen : Nat) (cv : Bool)
    (descDraws promptDraws : List GlyphDraw) : List Wr :=
  bgWrites width len ++ textWrites width len descDraws ++
    textWrites width len promptDraws ++ boxWrites width len ++
    asteriskWrites width len pinLen ++ cursorWrites width len pinLen cv

/-- Byte length of the UTF-8 encoding of the secret: the value of
`self.pin_input.len()` that `draw` passes to `render_to_canvas`
(wayland_window.rs:182,211). -/
def utf8Len (pin : List Char) : Nat :=
  (pin.map Char.utf8Size).sum

/-- One frame for the current session state, as composed by
`PinEntryWindow::draw` (wayland_window.rs:165-222): the secret enters
the renderer only through its byte length. -/
def drawFrame (width height : Nat) (pin : List Char) (cv : Bool)
    (dd pd : List GlyphDraw) : List Wr :=
  renderWrites width (width * height * 4) (utf8Len pin) cv dd pd

/-- The redaction marks one frame draws for secret `pin`. -/
def redactionMarks (pin : List Char) : List Nat :=
  marksList (utf8Len pin)

/-! ### Startup / font loading -/

/-- Outcome of `load_system_font` (wayland_window.rs:46-61): the font
bytes, or the panic that aborts the GUI thread. -/
inductive FontLoad where
  | ok (data : List Nat)
  | panicked (msg : String)
deriving DecidableEq, Repr

/-- The candidate font paths of `load_system_font`. -/
def font_paths : List String :=
  ["/usr/share/fonts/X11/dejavu/DejaVuSans.ttf"]

/-- The panic message of `load_system_font`. -/
def fontPanicMsg : String :=
  "No system font found. Please install DejaVu Sans or Liberation Sans fonts."

/-- The path loop of `load_system_font`, over a filesystem modelled as
a partial map from path to file bytes. -/
def tryPaths (fs : String → Option (List Nat)) : List String → FontLoad
  | [] => .panicked fontPanicMsg
  | p :: ps =>
    match fs p with
    | some d => .ok d
    | none => tryPaths fs ps

/-- Mirror of `load_system_font`. -/
def load_system_font (fs : String → Option (List Nat)) : FontLoad :=
  tryPaths fs font_paths

/-- What the protocol thread gets back from one `get_pin` request. -/
inductive ProtoReply where
  | internalError
  | secret (s : Option (List Char))
deriving DecidableEq, Repr

/-- Process-level outcome of handling one `get_pin` request:
`exited` would be a process termination (the only `process::exit` in
the source is main.rs:147, on a serve-loop error), `answered` is a
normal return to the protocol server, recording whether a window was
created for the request. -/
inductive ProcOutcome where
  | exited (msg : String)
  | answered (windowShown : Bool) (reply : ProtoReply)
deriving DecidableEq, Repr

/-- Whether the outcome terminated the process. -/
def ProcOutcome.isExited : ProcOutcome → Bool
  | .exited _ => true
  | .answered _ _ => false

/-- Mirror of `WaylandPinentry::show_pin_dialog` (main.rs:40-66) as
driven by a list of event batches: `PinEntryWindow::new` loads the
font first; a missing font panics the GUI thread before
`create_window` runs, the panic is caught by `join` and mapped to
`PinentryError::ThreadPanic`, i.e. an internal-error reply — the
process is not terminated.  With the font present, the window is
created and the dispatch loop runs to its first observed result. -/
def handle_get_pin (fs : String → Option (List Nat))
    (batches : List (List Ev)) : ProcOutcome :=
  match load_system_font fs with
  | .panicked _ => .answered false .internalError
  | .ok _ =>
    .answered true (.secret (dialogOutcome (dispatchLoop initSt batches).result))

/-! ### Helper lemmas -/

/-- Every character in `0x20..=0x7e` passes the
`is_ascii_alphanumeric || is_ascii_punctuation || is_ascii_whitespace`
filter of `press_key`. -/
theorem printable_pass (k : Nat) (h1 : 0x20 ≤ k) (h2 : k ≤ 0x7e) :
    (isAsciiAlphanumeric (Char.ofNat k) || isAsciiPunctuation (Char.ofNat k) ||
      isAsciiWhitespace (Char.ofNat k)) = true := by
  have h : ∀ j : Nat, j < 127 → 32 ≤ j →
      (isAsciiAlphanumeric (Char.ofNat j) || isAsciiPunctuation (Char.ofNat j) ||
        isAsciiWhitespace (Char.ofNat j)) = true := by decide
  exact h k (by omega) h1

/-- A printable key press with Ctrl up appends exactly its character. -/
theorem press_printable (s : St) (k : Nat) (hc : s.ctrl = false)
    (h1 : 0x20 ≤ k) (h2 : k ≤ 0x7e) :
    press_key s k = ({ s with pin := s.pin ++ [Char.ofNat k] }, none) := by
  have hne : ¬(k = ksReturn ∨ k = ksKPEnter) := by
    simp only [ksReturn, ksKPEnter]; omega
  have hne2 : ¬(k = ksEscape) := by simp only [ksEscape]; omega
  have hne3 : ¬(k = ksBackSpace) := by simp only [ksBackSpace]; omega
  have hv : ¬(s.ctrl = true ∧ (k = ksLowerV ∨ k = ksUpperV)) := by
    simp [hc]
  have ha : ¬(s.ctrl = true ∧ (k = ksLowerA ∨ k = ksUpperA)) := by
    simp [hc]
  have hchar : keysym_to_char k = some (Char.ofNat k) := by
    simp [keysym_to_char, h1, h2]
  unfold press_key
  rw [if_neg hne, if_neg hne2, if_neg hne3, if_neg hv, if_neg ha, hchar]
  simp [printable_pass k h1 h2]

theorem processKeys_cons (s : St) (k : Nat) (ks : List Nat) :
    processKeys s (k :: ks) = processKeys (press_key s k).1 ks := rfl

theorem processKeys_append (s : St) (ks₁ ks₂ : List Nat) :
    processKeys s (ks₁ ++ ks₂) = processKeys (processKeys s ks₁) ks₂ := by
  simp [processKeys]

/-- Folding printable key presses (Ctrl up) appends their characters
in order and changes nothing else. -/
theorem processKeys_printable (ks : List Nat) : ∀ s : St, s.ctrl = false →
    (∀ k ∈ ks, 0x20 ≤ k ∧ k ≤ 0x7e) →
    processKeys s ks = { s with pin := s.pin ++ ks.map Char.ofNat } := by
  induction ks with
  | nil =>
    intro s _ _
    simp [processKeys]
  | cons k ks ih =>
    intro s hc h
    have hk := h k (List.mem_cons_self k ks)
    rw [processKeys_cons, press_printable s k hc hk.1 hk.2]
    show processKeys { s with pin := s.pin ++ [Char.ofNat k] } ks = _
    rw [ih { s with pin := s.pin ++ [Char.ofNat k] } hc
      (fun j hj => h j (List.mem_cons_of_mem k hj))]
    simp

/-- Reduction of the Ctrl+V branch of `press_key`. -/
theorem press_ctrlV (s : St) (k : Nat) (hc : s.ctrl = true)
    (hk : k = ksLowerV ∨ k = ksUpperV) :
    press_key s k =
      match s.clipboard with
      | some content => ({ s with pin := s.pin ++ content, clipboard := none }, none)
      | none =>
        match s.offer with
        | some o => ({ s with clipboard := none, offer := none }, some o)
        | none => ({ s with clipboard := none }, none) := by
  rcases hk with h | h <;> subst h <;>
    · unfold press_key
      rw [if_neg (by decide), if_neg (by decide), if_neg (by decide),
        if_pos ⟨hc, by simp⟩]

/-- No event handler empties an occupied result slot. -/
theorem step_result_some (s : St) (e : Ev) (h : s.result.isSome = true) :
    (step s e).result.isSome = true := by
  cases e with
  | mods c => exact h
  | clipReady t => exact h
  | close => rfl
  | key k =>
    show (press_key s k).1.result.isSome = true
    unfold press_key
    split
    · rfl
    split
    · rfl
    split
    · exact h
    split
    · cases hcb : s.clipboard with
      | some content => simp only [hcb]; exact h
      | none =>
        simp only [hcb]
        cases hof : s.offer with
        | some o => simp only [hof]; exact h
        | none => simp only [hof]; exact h
    split
    · exact h
    cases hch : keysym_to_char k with
    | some c =>
      simp only [hch]
      split
      · exact h
      · exact h
    | none => simp only [hch]; exact h

/-- Whole batches preserve an occupied result slot. -/
theorem runBatch_result_some (b : List Ev) : ∀ s : St, s.result.isSome = true →
    (runBatch s b).result.isSome = true := by
  induction b with
  | nil => intro s h; exact h
  | cons e b ih => intro s h; exact ih (step s e) (step_result_some s e h)

theorem guardWr_some (len x y o : Nat) (wr : Wr) (h : guardWr len x y o = some wr) :
    wr = { px := x, py := y, off := o } ∧ o + 4 ≤ len := by
  unfold guardWr at h
  split at h
  · cases h
    exact ⟨rfl, by assumption⟩
  · cases h

theorem bgWrites_inbounds (width len : Nat) (wr : Wr) (h : wr ∈ bgWrites width len) :
    wr.off + 4 ≤ len := by
  unfold bgWrites at h
  rw [List.mem_map] at h
  obtain ⟨i, hi, rfl⟩ := h
  rw [List.mem_range] at hi
  have h4 := Nat.div_mul_le_self len 4
  show 4 * i + 4 ≤ len
  omega

theorem boxWrites_inbounds (width len : Nat) (wr : Wr) (h : wr ∈ boxWrites width len) :
    wr.off + 4 ≤ len := by
  unfold boxWrites at h
  rw [List.mem_flatMap] at h
  obtain ⟨y, _, h⟩ := h
  rw [List.mem_filterMap] at h
  obtain ⟨x, _, h⟩ := h
  obtain ⟨rfl, hle⟩ := guardWr_some _ _ _ _ _ h
  exact hle

theorem markWrites_inbounds (width len ax : Nat) (wr : Wr)
    (h : wr ∈ markWrites width len ax) : wr.off + 4 ≤ len := by
  unfold markWrites at h
  rw [List.mem_flatMap] at h
  obtain ⟨dy, _, h⟩ := h
  rw [List.mem_filterMap] at h
  obtain ⟨dx, _, h⟩ := h
  split at h
  · obtain ⟨rfl, hle⟩ := guardWr_some _ _ _ _ _ h
    exact hle
  · cases h

theorem asteriskWrites_inbounds (width len pinLen : Nat) (wr : Wr)
    (h : wr ∈ asteriskWrites width len pinLen) : wr.off + 4 ≤ len := by
  unfold asteriskWrites at h
  rw [List.mem_flatMap] at h
  obtain ⟨ax, _, h⟩ := h
  exact markWrites_inbounds _ _ _ _ h

theorem cursorWrites_inbounds (width len pinLen : Nat) (cv : Bool) (wr : Wr)
    (h : wr ∈ cursorWrites width len pinLen cv) : wr.off + 4 ≤ len := by
  unfold cursorWrites at h
  cases cv with
  | false => simp at h
  | true =>
    rw [if_pos rfl] at h
    rw [List.mem_flatMap] at h
    obtain ⟨y, _, h⟩ := h
    rw [List.mem_filterMap] at h
    obtain ⟨x, _, h⟩ := h
    obtain ⟨rfl, hle⟩ := guardWr_some _ _ _ _ _ h
    exact hle

theorem i32ofU32_le (n : Nat) : i32ofU32 (u32 n) ≤ (n : Int) := by
  unfold i32ofU32 u32 U32
  have hmod : ((n % 4294967296 : Nat) : Int) ≤ (n : Int) := by
    exact_mod_cast Nat.mod_le n 4294967296
  split
  · exact hmod
  · omega

/-- A glyph access that happens is at a pixel inside
`[0,width) x [0, len/(width*4))`, at an in-bounds byte offset. -/
theorem glyphWriteAt_some (width len : Nat) (d : GlyphDraw) (gx gy : Nat) (wr : Wr)
    (h : glyphWriteAt width len d gx gy = some wr) :
    wr.off + 4 ≤ len ∧ wr.px < width ∧ wr.py < len / (width * 4) := by
  unfold glyphWriteAt at h
  by_cases hs : (d.pixX + (gx : Int) < 0 ∨ d.pixY + (gy : Int) < 0 ∨
      i32ofU32 (u32 width) ≤ d.pixX + (gx : Int) ∨
      i32ofUsize (len / (width * 4)) ≤ d.pixY + (gy : Int))
  · rw [if_pos hs] at h
    exact Option.noConfusion h
  · rw [if_neg hs] at h
    push_neg at hs
    obtain ⟨hcx0, hcy0, hcxw, hcyh⟩ := hs
    have hxw : (d.pixX + (gx : Int)).toNat < width := by
      have := lt_of_lt_of_le hcxw (i32ofU32_le width)
      omega
    have hyh : (d.pixY + (gy : Int)).toNat < len / (width * 4) := by
      have h2 : i32ofUsize (len / (width * 4)) ≤ ((len / (width * 4) : Nat) : Int) :=
        i32ofU32_le (len / (width * 4))
      have := lt_of_lt_of_le hcyh h2
      omega
    split at h
    · split at h
      · obtain ⟨rfl, hle⟩ := guardWr_some _ _ _ _ _ h
        exact ⟨hle, hxw, hyh⟩
      · exact Option.noConfusion h
    · exact Option.noConfusion h

theorem glyphPixelWrites_bounds (width len : Nat) (d : GlyphDraw) (wr : Wr)
    (h : wr ∈ glyphPixelWrites width len d) :
    wr.off + 4 ≤ len ∧ wr.px < width ∧ wr.py < len / (width * 4) := by
  unfold glyphPixelWrites at h
  rw [List.mem_flatMap] at h
  obtain ⟨gy, _, h⟩ := h
  rw [List.mem_filterMap] at h
  obtain ⟨gx, _, h⟩ := h
  exact glyphWriteAt_some _ _ _ _ _ _ h

theorem textWrites_inbounds (width len : Nat) (ds : List GlyphDraw) (wr : Wr)
    (h : wr ∈ textWrites width len ds) : wr.off + 4 ≤ len := by
  unfold textWrites at h
  rw [List.mem_flatMap] at h
  obtain ⟨d, _, h⟩ := h
  exact (glyphPixelWrites_bounds _ _ _ _ h).1

/-- Every write of a composed frame stays inside the buffer. -/
theorem renderWrites_inbounds (width len pinLen : Nat) (cv : Bool)
    (dd pd : List GlyphDraw) (wr : Wr)
    (h : wr ∈ renderWrites width len pinLen cv dd pd) : wr.off + 4 ≤ len := by
  simp only [renderWrites, List.mem_append] at h
  rcases h with ((((h | h) | h) | h) | h) | h
  · exact bgWrites_inbounds _ _ _ h
  · exact textWrites_inbounds _ _ _ _ h
  · exact textWrites_inbounds _ _ _ _ h
  · exact boxWrites_inbounds _ _ _ h
  · exact asteriskWrites_inbounds _ _ _ _ h
  · exact cursorWrites_inbounds _ _ _ _ _ h

/-- An all-ASCII secret has as many UTF-8 bytes as characters. -/
theorem utf8Len_all_one (pin : List Char) (h : ∀ c ∈ pin, c.utf8Size = 1) :
    utf8Len pin = pin.length := by
  induction pin with
  | nil => rfl
  | cons c cs ih =>
    have hc := h c (List.mem_cons_self c cs)
    unfold utf8Len at *
    simp only [List.map_cons, List.sum_cons, List.length_cons, hc,
      ih (fun x hx => h x (List.mem_cons_of_mem c hx))]
    omega

/-! ### Claim theorems -/

/-- C1 counterexample: `press_key` does not consult the result slot,
so after Enter has set the result (`Ok ""` from the empty secret), a
later key press in the same dispatch batch still mutates the secret
text, and a later Escape press overwrites the stored result. -/
theorem c1_cex :
    (press_key initSt ksReturn).1.result = some (.ok []) ∧
    (press_key (press_key initSt ksReturn).1 0x61).1.pin ≠
      (press_key initSt ksReturn).1.pin ∧
    (press_key (press_key initSt ksReturn).1 ksEscape).1.result ≠
      (press_key initSt ksReturn).1.result := by
  decide

/-- C1 (amended): no event handler ever empties an occupied result
slot, and the dispatch loop of `show_pin_dialog` checks the slot after
each event batch and exits at the first batch whose processing ends
with the slot occupied, so no event of any later batch is processed
and the secret and result are final from that point on.  (Within the
finalizing batch itself, key events after the finalizing event can
still mutate the secret and overwrite the result — see the
counterexample.) -/
theorem c1_finalized_terminal (s : St) (e : Ev) (b : List Ev) (bs : List (List Ev))
    (h₁ : s.result.isSome = true) (h₂ : (runBatch s b).result.isSome = true) :
    (step s e).result.isSome = true ∧
    dispatchLoop s (b :: bs) = runBatch s b := by
  refine ⟨step_result_some s e h₁, ?_⟩
  show (if (runBatch s b).result.isSome then runBatch s b
        else dispatchLoop (runBatch s b) bs) = runBatch s b
  rw [if_pos h₂]

/-- C1 witness: a finalized state stays finalized across a further key
event, and a loop whose first batch finalizes never processes the
second batch. -/
theorem c1_witness :
    (step (press_key initSt ksReturn).1 (.key 0x61)).result.isSome = true ∧
    dispatchLoop (press_key initSt ksReturn).1 [[.key 0x62], [.key 0x63]] =
      runBatch (press_key initSt ksReturn).1 [.key 0x62] :=
  c1_finalized_terminal (press_key initSt ksReturn).1 (.key 0x61)
    [.key 0x62] [[.key 0x63]] (by decide) (by decide)

/-- C2 counterexample: with width 44 and a two-character secret the
second redaction mark starts at x = 42, so its writes reach
destination pixels with x ≥ 44 — outside `[0,width)` — yet they are
not skipped: the guard only checks the linear byte offset, which wraps
the pixel onto the next row (write `⟨45, 136, 24116⟩` is performed). -/
theorem c2_cex :
    ¬ (∀ wr ∈ renderWrites 44 (44 * 200 * 4) 2 true [] [],
        wr.off + 4 ≤ 44 * 200 * 4 ∧ wr.px < 44 ∧ wr.py < 200) := by
  intro hall
  have hm : (⟨45, 136, 24116⟩ : Wr) ∈ asteriskWrites 44 (44 * 200 * 4) 2 := by
    decide
  have hmem : (⟨45, 136, 24116⟩ : Wr) ∈ renderWrites 44 (44 * 200 * 4) 2 true [] [] := by
    simp only [renderWrites, List.mem_append]
    exact Or.inl (Or.inr hm)
  exact absurd (hall _ hmem).2.1 (by decide)

/-- C2 (amended): every canvas access of a composed frame stays inside
`[0, width*height*4)` — each guarded by `offset + 4 <= canvas.len()` —
and in the glyph compositing path every accessed destination pixel
lies inside `[0,width) x [0, height)` with the height derived from
buffer length / stride.  The destination-pixel bound does NOT hold for
the redaction-glyph and cursor writes: when the secret is long enough
that a mark leaves the window's x-range, its bytes are written at a
wrapped in-buffer offset on a later row instead of being skipped (see
the counterexample). -/
theorem c2_writes_inbounds (width height pinLen : Nat) (cv : Bool)
    (dd pd : List GlyphDraw) (d : GlyphDraw) (wr wg : Wr)
    (hw : wr ∈ renderWrites width (width * height * 4) pinLen cv dd pd)
    (hg : wg ∈ glyphPixelWrites width (width * height * 4) d) :
    wr.off + 4 ≤ width * height * 4 ∧
    wg.px < width ∧ (0 < width → wg.py < height) := by
  refine ⟨renderWrites_inbounds _ _ _ _ _ _ _ hw, ?_, ?_⟩
  · exact (glyphPixelWrites_bounds _ _ _ _ hg).2.1
  · intro hpos
    have h := (glyphPixelWrites_bounds _ _ _ _ hg).2.2
    have heq : width * height * 4 / (width * 4) = height := by
      rw [show width * height * 4 = (width * 4) * height by ring]
      exact Nat.mul_div_cancel_left height (by omega)
    rw [heq] at h
    exact h

/-- C2 witness: a background write and a glyph write at concrete small
parameters, both in bounds. -/
theorem c2_witness :
    ({ px := 0, py := 0, off := 0 } : Wr).off + 4 ≤ 44 * 1 * 4 ∧
    ({ px := 0, py := 0, off := 0 } : Wr).px < 44 ∧
    (0 < 44 → ({ px := 0, py := 0, off := 0 } : Wr).py < 1) :=
  c2_writes_inbounds 44 1 0 false [] []
    { img := { gw := 1, gh := 1, data := [255], content := .mask }, pixX := 0, pixY := 0 }
    { px := 0, py := 0, off := 0 } { px := 0, py := 0, off := 0 }
    (by decide) (by decide)

/-- C3: from the initial session state, any sequence of key presses
whose keysyms lie in `0x20..=0x7e` (Ctrl is up throughout, so the
Ctrl+V / Ctrl+A branches are unreachable), followed by Enter or
numeric-pad Enter, finalizes the session as Confirmed with secret text
equal to the concatenation of the corresponding characters in order. -/
theorem c3_printable_then_enter (ks : List Nat) (e : Nat)
    (hks : ∀ k ∈ ks, 0x20 ≤ k ∧ k ≤ 0x7e)
    (he : e = ksReturn ∨ e = ksKPEnter) :
    (processKeys initSt (ks ++ [e])).result = some (.ok (ks.map Char.ofNat)) ∧
    (processKeys initSt (ks ++ [e])).pin = ks.map Char.ofNat := by
  rw [processKeys_append, processKeys_printable ks initSt rfl hks, processKeys_cons]
  show ((press_key { initSt with pin := initSt.pin ++ List.map Char.ofNat ks } e).1.result
      = _) ∧ _
  unfold press_key
  rw [if_pos he]
  simp [initSt, processKeys]

/-- C3 witness: the spec scenario — keys '1', '2', '3', Enter finalize
as Confirmed("123"). -/
theorem c3_witness :
    (processKeys initSt ([0x31, 0x32, 0x33] ++ [0xff0d])).result =
      some (.ok ([0x31, 0x32, 0x33].map Char.ofNat)) ∧
    (processKeys initSt ([0x31, 0x32, 0x33] ++ [0xff0d])).pin =
      [0x31, 0x32, 0x33].map Char.ofNat :=
  c3_printable_then_enter [0x31, 0x32, 0x33] 0xff0d (by decide) (Or.inl rfl)

/-- C4: from any session state, Escape and a window-close request both
finalize as Cancelled (`Err("User cancelled")`) regardless of the
accumulated secret text, and the value handed to the protocol thread
by the result match of `show_pin_dialog` is the no-secret outcome
`none` — never the partial input (the error value is a constant
string, independent of the state). -/
theorem c4_cancel_no_leak (s : St) (m : String) :
    (press_key s ksEscape).1.result = some (.err cancelMsg) ∧
    (request_close s).result = some (.err cancelMsg) ∧
    dialogOutcome (press_key s ksEscape).1.result = none ∧
    dialogOutcome (request_close s).result = none ∧
    dialogOutcome (some (.err m)) = none := by
  have h1 : (press_key s ksEscape).1.result = some (.err cancelMsg) := by
    unfold press_key
    rw [if_neg (by decide), if_pos rfl]
  exact ⟨h1, rfl, by rw [h1]; rfl, rfl, rfl⟩

/-- C5 counterexample: `draw` passes `pin_input.len()` — the UTF-8
byte length — to the renderer, so the secret consisting of the single
character U+00E9 (two UTF-8 bytes) is drawn with two redaction marks,
not one per character. -/
theorem c5_cex :
    (redactionMarks [Char.ofNat 233]).length ≠ [Char.ofNat 233].length := by
  decide

/-- C5 (amended): the redaction drawing never renders the literal
secret characters — the composed frame depends on the secret only
through its UTF-8 byte length — and the number of fixed 8×8 redaction
marks drawn equals that byte length, which equals the number of
characters exactly when every character is single-byte (true for all
keyboard-entered input); a multi-byte pasted character yields one mark
per byte. -/
theorem c5_redaction_count (pin qin : List Char) (width height : Nat) (cv : Bool)
    (dd pd : List GlyphDraw)
    (hascii : ∀ c ∈ pin, c.utf8Size = 1)
    (hlen : utf8Len pin = utf8Len qin) :
    (redactionMarks pin).length = utf8Len pin ∧
    (redactionMarks pin).length = pin.length ∧
    drawFrame width height pin cv dd pd = drawFrame width height qin cv dd pd := by
  have hcount : (redactionMarks pin).length = utf8Len pin := by
    simp [redactionMarks, marksList]
  refine ⟨hcount, ?_, ?_⟩
  · rw [hcount]
    exact utf8Len_all_one pin hascii
  · unfold drawFrame
    rw [hlen]

/-- C5 witness: a two-character ASCII secret gets exactly two marks,
and a frame for it coincides with the frame for any other secret of
the same byte length. -/
theorem c5_witness :
    (redactionMarks ['a', 'b']).length = utf8Len ['a', 'b'] ∧
    (redactionMarks ['a', 'b']).length = (['a', 'b'] : List Char).length ∧
    drawFrame 44 1 ['a', 'b'] false [] [] = drawFrame 44 1 ['c', 'd'] false [] [] :=
  c5_redaction_count ['a', 'b'] ['c', 'd'] 44 1 false [] [] (by decide) (by decide)

/-- C6: with Ctrl held and keysym 'v'/'V': (1) no ready payload and no
pending offer leaves the whole state unchanged; (2) a ready payload is
appended to the secret exactly once and cleared, so an immediately
following Ctrl+V appends nothing further; (3) a pending offer with no
ready payload is handed to `read_clipboard` (the asynchronous read
request, second component) and the secret text is unchanged. -/
theorem c6_ctrl_v (s : St) (k : Nat) (content : List Char) (o : SelOffer)
    (hc : s.ctrl = true) (hk : k = ksLowerV ∨ k = ksUpperV) :
    (s.clipboard = none → s.offer = none → press_key s k = (s, none)) ∧
    (s.clipboard = some content →
      (press_key s k).1.pin = s.pin ++ content ∧
      (press_key s k).1.clipboard = none ∧
      (press_key (press_key s k).1 k).1.pin = s.pin ++ content) ∧
    (s.clipboard = none → s.offer = some o →
      (press_key s k).1.pin = s.pin ∧
      (press_key s k).1.offer = none ∧
      (press_key s k).2 = some o) := by
  refine ⟨?_, ?_, ?_⟩
  · intro hcb hof
    rw [press_ctrlV s k hc hk, hcb, hof]
    cases s
    simp_all
  · intro hcb
    rw [press_ctrlV s k hc hk, hcb]
    refine ⟨rfl, rfl, ?_⟩
    rw [press_ctrlV { s with pin := s.pin ++ content, clipboard := none } k hc hk]
    cases hof : s.offer <;> simp
  · intro hcb hof
    rw [press_ctrlV s k hc hk, hcb, hof]
    exact ⟨rfl, rfl, rfl⟩

/-- C6 witness: pasting a ready payload appends it once; pressing
Ctrl+V again appends nothing more. -/
theorem c6_witness :
    (press_key { pin := ['a'], result := none, ctrl := true, clipboard := some ['b', 'c'], offer := none } 0x76).1.pin = ['a'] ++ ['b', 'c'] ∧
    (press_key (press_key { pin := ['a'], result := none, ctrl := true, clipboard := some ['b', 'c'], offer := none } 0x76).1 0x76).1.pin = ['a'] ++ ['b', 'c'] :=
  have h := (c6_ctrl_v { pin := ['a'], result := none, ctrl := true, clipboard := some ['b', 'c'], offer := none } 0x76 ['b', 'c'] { mimes := [] } rfl (Or.inl rfl)).2.1 rfl
  ⟨h.1, h.2.2⟩

/-- C7: Backspace maps the secret to `dropLast`: on an empty secret it
stays empty (Rust `String::pop` on empty returns `None`, no panic), on
a non-empty secret exactly the last character is removed and all
preceding characters are unchanged. -/
theorem c7_backspace (s : St) (p : List Char) (c : Char) :
    (press_key s ksBackSpace).1.pin = s.pin.dropLast ∧
    (s.pin = [] → (press_key s ksBackSpace).1.pin = []) ∧
    (s.pin = p ++ [c] → (press_key s ksBackSpace).1.pin = p) := by
  have hmain : (press_key s ksBackSpace).1.pin = s.pin.dropLast := by
    unfold press_key
    rw [if_neg (by decide), if_neg (by decide), if_pos rfl]
  refine ⟨hmain, ?_, ?_⟩
  · intro h
    rw [hmain, h]
    rfl
  · intro h
    rw [hmain, h]
    exact List.dropLast_concat

/-- C7 witness: after typing 'a' then 'b', Backspace removes exactly
'b' and keeps 'a'. -/
theorem c7_witness :
    (press_key (processKeys initSt [0x61, 0x62]) ksBackSpace).1.pin = ['a'] :=
  (c7_backspace (processKeys initSt [0x61, 0x62]) ['a'] 'b').2.2 (by decide)

/-- C8 counterexample: with the font absent at every candidate path, a
`get_pin` request does not terminate the process; the GUI thread's
panic is caught by the `join` of `show_pin_dialog` and surfaced as an
internal-error reply (with no window created), so the claimed
process-abort-at-startup does not happen. -/
theorem c8_cex :
    handle_get_pin (fun _ => none) [] =
      .answered false .internalError ∧
    (handle_get_pin (fun _ => none) []).isExited = false := by
  constructor
  · rfl
  · rfl

/-- C8 (amended): if the font file is absent at all candidate paths,
the dialog's GUI thread panics with the clearly identified message of
`load_system_font` before `create_window` runs, so no window is shown;
the panic is caught by the protocol thread's `join` and surfaced as an
internal-error reply for that request — the font check runs per dialog
request, not at process startup, and this path does not terminate the
process. -/
theorem c8_font_missing (fs : String → Option (List Nat)) (batches : List (List Ev))
    (h : ∀ p ∈ font_paths, fs p = none) :
    load_system_font fs = .panicked fontPanicMsg ∧
    handle_get_pin fs batches = .answered false .internalError ∧
    (handle_get_pin fs batches).isExited = false := by
  have hp : fs "/usr/share/fonts/X11/dejavu/DejaVuSans.ttf" = none :=
    h _ (by simp [font_paths])
  have hl : load_system_font fs = .panicked fontPanicMsg := by
    unfold load_system_font font_paths
    simp [tryPaths, hp]
  refine ⟨hl, ?_, ?_⟩
  · unfold handle_get_pin
    rw [hl]
  · unfold handle_get_pin
    rw [hl]
    rfl

/-- C8 witness: the empty filesystem. -/
theorem c8_witness :
    load_system_font (fun _ => none) = .panicked fontPanicMsg ∧
    handle_get_pin (fun _ => none) [[.key 0x61]] = .answered false .internalError ∧
    (handle_get_pin (fun _ => none) [[.key 0x61]]).isExited = false :=
  c8_font_missing (fun _ => none) [[.key 0x61]] (fun _ _ => rfl)

/-- C9: `confirm` collapses the dialog outcome to `Ok` exactly when a
secret was produced and `Canceled` otherwise; its value is identical
for any two Confirmed runs whatever was typed (the typed string is
discarded — `ConfirmChoice` carries no text), and every Cancelled or
empty outcome yields `Canceled`. -/
theorem c9_confirm_no_leak (p₁ p₂ : List Char) (m : String) :
    confirmChoiceOf (dialogOutcome (some (.ok p₁))) = .ok ∧
    confirmChoiceOf (dialogOutcome (some (.ok p₁))) =
      confirmChoiceOf (dialogOutcome (some (.ok p₂))) ∧
    confirmChoiceOf (dialogOutcome (some (.err m))) = .canceled ∧
    confirmChoiceOf (dialogOutcome none) = .canceled := by
  exact ⟨rfl, rfl, rfl, rfl⟩

/-- C10: `keysym_to_char` returns a character exactly for raw keysyms
in `0x20..=0x7e` (and then the character with that code point), so a
key press with any keysym outside that range — numeric-keypad digits
included — never appends to the secret: it leaves the secret unchanged
or (Backspace) removes its last character. -/
theorem c10_printable_only (s : St) (k : Nat) (hk : ¬(0x20 ≤ k ∧ k ≤ 0x7e)) :
    keysym_to_char k = none ∧
    ((press_key s k).1.pin = s.pin ∨ (press_key s k).1.pin = s.pin.dropLast) ∧
    (∀ j, 0x20 ≤ j → j ≤ 0x7e → keysym_to_char j = some (Char.ofNat j)) ∧
    (∀ j c, keysym_to_char j = some c → 0x20 ≤ j ∧ j ≤ 0x7e ∧ c = Char.ofNat j) := by
  have hnone : keysym_to_char k = none := by
    unfold keysym_to_char
    exact if_neg hk
  refine ⟨hnone, ?_, ?_, ?_⟩
  · unfold press_key
    split
    · exact Or.inl rfl
    split
    · exact Or.inl rfl
    split
    · exact Or.inr rfl
    split
    · rename_i hcond
      rcases hcond.2 with h | h <;> subst h <;> exact absurd (by decide) hk
    split
    · exact Or.inl rfl
    rw [hnone]
    exact Or.inl rfl
  · intro j h1 h2
    unfold keysym_to_char
    rw [if_pos ⟨h1, h2⟩]
  · intro j c hj
    unfold keysym_to_char at hj
    split at hj
    · rename_i hr
      cases hj
      exact ⟨hr.1, hr.2, rfl⟩
    · exact Option.noConfusion hj

/-- C10 witness: the numeric-keypad digit keysym KP_1 (0xffb1) maps to
no character and leaves the secret untouched. -/
theorem c10_witness :
    keysym_to_char 0xffb1 = none ∧
    ((press_key initSt 0xffb1).1.pin = initSt.pin ∨
      (press_key initSt 0xffb1).1.pin = initSt.pin.dropLast) ∧
    (∀ j, 0x20 ≤ j → j ≤ 0x7e → keysym_to_char j = some (Char.ofNat j)) ∧
    (∀ j c, keysym_to_char j = some c → 0x20 ≤ j ∧ j ≤ 0x7e ∧ c = Char.ofNat j) :=
  c10_printable_only initSt 0xffb1 (by decide)

end PinentryWayland
